import Mathlib

/-!
# Verification of napari's `OctreeIntersection`
(`src/napari/layers/image/experimental/octree_intersection.py`)

Shallow embedding of the octree viewport-intersection engine:
* Python floats are modelled as exact rationals `ℚ`;
* `int(x)` (truncation toward zero) is `truncQ`;
* numpy 2×2 corner arrays `[[r0, c0], [r1, c1]]` are pairs of pairs;
* the mutable per-level tile grid `level.tiles` is explicit state
  (`Grid α := ℤ → ℤ → TileCell α`) threaded through `get_chunks`;
* numpy buffer identity (needed for the "never mutates the caller's
  buffer" claim) is modelled by a small store of buffers, `NpStore`.
-/

namespace Octree

/-- A 2-vector, like the numpy `Float2 = np.ndarray  # [x, y]`. -/
abbrev Float2 := ℚ × ℚ

/-- The 2×2 corners array `[[r0, c0], [r1, c1]]`: row 0 is the lower-left
corner, row 1 the upper-right corner, axis 0 = rows, axis 1 = cols. -/
abbrev Corners := (ℚ × ℚ) × (ℚ × ℚ)

/-- Image-wide configuration reachable as `level.info.image_config`. -/
structure ImageConfig where
  base_shape : ℕ × ℕ
  tile_size : ℕ
  deriving DecidableEq

/-- Per-level metadata reachable as `level.info`. -/
structure LevelInfo where
  level_index : ℕ
  scale : ℚ
  image_config : ImageConfig
  shape_in_tiles : ℕ × ℕ
  deriving DecidableEq

/-- `OctreeLocation(slice_id, level_index, row, col)`. -/
structure OctreeLocation where
  slice_id : ℕ
  level_index : ℕ
  row : ℤ
  col : ℤ
  deriving DecidableEq

/-- `OctreeChunkGeom(pos, scale)`. -/
structure OctreeChunkGeom where
  pos : Float2
  scale : Float2
  deriving DecidableEq

/-- `OctreeChunk(data, location, geom)`, payload type `α`. -/
structure OctreeChunk (α : Type) where
  data : α
  location : OctreeLocation
  geom : OctreeChunkGeom
  deriving DecidableEq

/-- One cell of `level.tiles`: either the untouched raw payload or an
already materialized `OctreeChunk` (the `isinstance(data, OctreeChunk)`
tagged union). -/
inductive TileCell (α : Type) where
  | raw (data : α)
  | chunk (c : OctreeChunk α)
  deriving DecidableEq

/-- The per-level tile grid `level.tiles`, indexed `tiles[row][col]`. -/
abbrev Grid (α : Type) := ℤ → ℤ → TileCell α

/-- Write one grid cell (`self.level.tiles[row][col] = chunk`). -/
def gridSet {α : Type} (g : Grid α) (row col : ℤ) (v : TileCell α) : Grid α :=
  fun r c => if r = row ∧ c = col then v else g r c

/-- A Python `range(start, stop)` of integers (step 1). -/
structure PyRange where
  start : ℤ
  stop : ℤ
  deriving DecidableEq

/-- Membership in a Python `range(start, stop)`. -/
def PyRange.mem (r : PyRange) (i : ℤ) : Prop :=
  r.start ≤ i ∧ i < r.stop

instance (r : PyRange) (i : ℤ) : Decidable (r.mem i) := by
  unfold PyRange.mem; infer_instance

/-- The elements of a Python `range(start, stop)`, in iteration order. -/
def PyRange.toList (r : PyRange) : List ℤ :=
  (List.range (r.stop - r.start).toNat).map (fun k : ℕ => r.start + (k : ℤ))

/-- Python's `max(min(val, max_val), min_val)` from the local `_clamp`
in `tile_range`. -/
def pyClamp (val min_val max_val : ℚ) : ℚ :=
  max (min val max_val) min_val

/-- numpy's `np.clip(a, a_min, a_max) = minimum(a_max, maximum(a, a_min))`. -/
def npClip (a a_min a_max : ℚ) : ℚ :=
  min a_max (max a a_min)

/-- Python `int(x)` on a float: truncation toward zero. -/
def truncQ (q : ℚ) : ℤ :=
  if 0 ≤ q then ⌊q⌋ else ⌈q⌉

/-- `OctreeIntersection.tile_range(span, num_tiles)`; `tile_size` is read
from `self.level.info.image_config.tile_size` and passed explicitly here.

    span_tiles = [span[0] / tile_size, span[1] / tile_size]
    clamped = [_clamp(span_tiles[0], 0, num_tiles - 1),
               _clamp(span_tiles[1], 0, num_tiles - 1) + 1]
    span_int = [int(x) for x in clamped]
    return range(*span_int)
-/
def tile_range (tile_size : ℕ) (span : ℚ × ℚ) (num_tiles : ℕ) : PyRange :=
  let span_tiles : ℚ × ℚ := (span.1 / (tile_size : ℚ), span.2 / (tile_size : ℚ))
  let clamped : ℚ × ℚ :=
    (pyClamp span_tiles.1 0 ((num_tiles : ℚ) - 1),
     pyClamp span_tiles.2 0 ((num_tiles : ℚ) - 1) + 1)
  { start := truncQ clamped.1, stop := truncQ clamped.2 }

/-- The state of an `OctreeIntersection` after `__init__` has run.
`corners_2d` holds the contents of `self.corners_2d` *after* the
constructor finished: because `self.rows = self.corners_2d[:, 0]` and
`self.cols = self.corners_2d[:, 1]` are numpy views into the copied
array, the in-place `self.rows /= info.scale` and `self.cols /= info.scale`
write through into `self.corners_2d`. -/
structure OctreeIntersection where
  info : LevelInfo
  corners_2d : Corners
  rows : ℚ × ℚ
  cols : ℚ × ℚ
  normalized_range : (ℚ × ℚ) × (ℚ × ℚ)
  row_range : PyRange
  col_range : PyRange
  deriving DecidableEq

/-- `OctreeIntersection.__init__(level, corners_2d)`.  Mirrors the source
order: copy the corners, take the row/col views (axis 0 / axis 1 of the
copy), compute `normalized_range` from the still-unscaled spans, then
divide the views by `info.scale` in place (which rewrites every entry of
the copied `corners_2d`), then compute the two tile ranges. -/
def OctreeIntersection.init (info : LevelInfo) (corners_2d : Corners) :
    OctreeIntersection :=
  -- self.corners_2d = corners_2d.copy()
  let corners := corners_2d
  -- self.rows = self.corners_2d[:, 0]; self.cols = self.corners_2d[:, 1]
  let rows0 : ℚ × ℚ := (corners.1.1, corners.2.1)
  let cols0 : ℚ × ℚ := (corners.1.2, corners.2.2)
  let base := info.image_config.base_shape
  let normalized_range :=
    ((npClip (rows0.1 / (base.1 : ℚ)) 0 1, npClip (rows0.2 / (base.1 : ℚ)) 0 1),
     (npClip (cols0.1 / (base.2 : ℚ)) 0 1, npClip (cols0.2 / (base.2 : ℚ)) 0 1))
  -- self.rows /= info.scale; self.cols /= info.scale  (in-place, through
  -- the views: every entry of the copied corners array is divided)
  let rows : ℚ × ℚ := (rows0.1 / info.scale, rows0.2 / info.scale)
  let cols : ℚ × ℚ := (cols0.1 / info.scale, cols0.2 / info.scale)
  let corners' : Corners := ((rows.1, cols.1), (rows.2, cols.2))
  { info := info
    corners_2d := corners'
    rows := rows
    cols := cols
    normalized_range := normalized_range
    row_range := tile_range info.image_config.tile_size rows info.shape_in_tiles.1
    col_range := tile_range info.image_config.tile_size cols info.shape_in_tiles.2 }

/-- `OctreeIntersection.is_visible(row, col)`:
`_inside(row, self._row_range) and _inside(col, self._col_range)` where
`_inside(value, r)` is `r.start <= value < r.stop`. -/
def OctreeIntersection.is_visible (I : OctreeIntersection) (row col : ℤ) : Bool :=
  (decide (I.row_range.start ≤ row) && decide (row < I.row_range.stop)) &&
  (decide (I.col_range.start ≤ col) && decide (col < I.col_range.stop))

/-- The body of `get_chunks` for one `(row, col)` cell:
read `self.level.tiles[row][col]`; if it is already an `OctreeChunk`
return it and leave the grid alone; otherwise build the location, the
geometry `OctreeChunkGeom(pos=[x, y], scale_vec)`, wrap the raw payload
into a new `OctreeChunk`, write it back into the grid cell, and return it. -/
def processCell {α : Type} (slice_id level_index : ℕ) (scale x y : ℚ)
    (g : Grid α) (row col : ℤ) : OctreeChunk α × Grid α :=
  match g row col with
  | TileCell.chunk c => (c, g)
  | TileCell.raw d =>
      let location : OctreeLocation :=
        { slice_id := slice_id, level_index := level_index, row := row, col := col }
      let geom : OctreeChunkGeom := { pos := (x, y), scale := (scale, scale) }
      let c : OctreeChunk α := { data := d, location := location, geom := geom }
      (c, gridSet g row col (TileCell.chunk c))

/-- The inner `for col in self._col_range` loop of `get_chunks` at a fixed
`row` and `y`, starting at screen position `x` and incrementing by
`scaled_size` each step. -/
def innerLoop {α : Type} (slice_id level_index : ℕ) (scale scaled_size y : ℚ)
    (row : ℤ) : List ℤ → ℚ → Grid α → List (OctreeChunk α) × Grid α
  | [], _, g => ([], g)
  | col :: rest, x, g =>
      let step := processCell slice_id level_index scale x y g row col
      let tail := innerLoop slice_id level_index scale scaled_size y row rest
        (x + scaled_size) step.2
      (step.1 :: tail.1, tail.2)

/-- The outer `for row in self._row_range` loop of `get_chunks`; each row
restarts `x` at `self._col_range.start * scaled_size` and advances `y` by
`scaled_size` afterwards. -/
def outerLoop {α : Type} (slice_id level_index : ℕ) (scale scaled_size x0 : ℚ)
    (cols : List ℤ) : List ℤ → ℚ → Grid α → List (OctreeChunk α) × Grid α
  | [], _, g => ([], g)
  | row :: rest, y, g =>
      let inner := innerLoop slice_id level_index scale scaled_size y row cols x0 g
      let tail := outerLoop slice_id level_index scale scaled_size x0 cols rest
        (y + scaled_size) inner.2
      (inner.1 ++ tail.1, tail.2)

/-- `OctreeIntersection.get_chunks(slice_id)`.  The mutable `self.level.tiles`
is threaded explicitly: the call takes the grid before the call and returns
the accumulated chunk list together with the grid after the call. -/
def OctreeIntersection.get_chunks {α : Type} (I : OctreeIntersection)
    (tiles : Grid α) (slice_id : ℕ) : List (OctreeChunk α) × Grid α :=
  let level_info := I.info
  let level_index := level_info.level_index
  let scale := level_info.scale
  let tile_size := level_info.image_config.tile_size
  let scaled_size := (tile_size : ℚ) * scale
  let y0 := (I.row_range.start : ℚ) * scaled_size
  let x0 := (I.col_range.start : ℚ) * scaled_size
  outerLoop slice_id level_index scale scaled_size x0
    I.col_range.toList I.row_range.toList y0 tiles

/-!
## numpy buffer identity

`__init__` receives the caller's corners array and immediately does
`self.corners_2d = corners_2d.copy()`; all later in-place mutation
(`self.rows /= info.scale`, `self.cols /= info.scale`) happens through
views into the *copy*.  To state "the caller's buffer is never mutated"
we model array identity: a store maps buffer ids to contents, `copy`
allocates a fresh id, and the in-place division rewrites the copy's id. -/

/-- A store of numpy corner buffers: contents by id, plus the next fresh id. -/
structure NpStore where
  bufs : ℕ → Corners
  next : ℕ

/-- Divide every entry of a corners buffer by `scale` — the combined
effect on `self.corners_2d` of `self.rows /= scale; self.cols /= scale`
through the two column views. -/
def divCorners (c : Corners) (scale : ℚ) : Corners :=
  ((c.1.1 / scale, c.1.2 / scale), (c.2.1 / scale, c.2.2 / scale))

/-- `OctreeIntersection.__init__` at the buffer level: `caller` is the id
of the caller's corners array inside `s`.  The constructor copies it into
a fresh buffer, mutates only the fresh buffer in place, and the resulting
intersection (whose `corners_2d` field holds the copy's final contents)
is exactly `OctreeIntersection.init` on the caller's contents.  Returns
the new store, the id of `self.corners_2d`, and the intersection. -/
def initStore (info : LevelInfo) (s : NpStore) (caller : ℕ) :
    NpStore × ℕ × OctreeIntersection :=
  -- self.corners_2d = corners_2d.copy(): allocate a fresh buffer
  let copyId := s.next
  let s1 : NpStore :=
    { bufs := fun i => if i = copyId then s.bufs caller else s.bufs i
      next := s.next + 1 }
  -- in-place `/= info.scale` through the row/col views of the copy
  let s2 : NpStore :=
    { bufs := fun i => if i = copyId then divCorners (s1.bufs copyId) info.scale
        else s1.bufs i
      next := s1.next }
  (s2, copyId, OctreeIntersection.init info (s.bufs caller))

/-! ## Concrete example data (spec §8 scenario) -/

/-- Image config of the spec's concrete scenario: base image `1000×1000`,
tile size `100`. -/
def cfg1000 : ImageConfig :=
  { base_shape := (1000, 1000), tile_size := 100 }

/-- Level of the spec's concrete scenario: scale `2.0`,
`shape_in_tiles = (5, 5)`. -/
def info7 : LevelInfo :=
  { level_index := 0, scale := 2, image_config := cfg1000, shape_in_tiles := (5, 5) }

/-- The scenario's intersection: viewport corners `[[0, 0], [250, 250]]`
in base coordinates. -/
def I7 : OctreeIntersection :=
  OctreeIntersection.init info7 ((0, 0), (250, 250))

/-- A fully raw tile grid (every cell untouched source payload `0`). -/
def rawGrid : Grid ℕ := fun _ _ => TileCell.raw 0

/-- A one-buffer numpy store holding the scenario corners at id `0`. -/
def st0 : NpStore :=
  { bufs := fun _ => ((0, 0), (250, 250)), next := 1 }

/-! ## Helper lemmas -/

theorem truncQ_of_nonneg {q : ℚ} (h : 0 ≤ q) : truncQ q = ⌊q⌋ := by
  simp [truncQ, h]

theorem tile_range_eq (tile_size : ℕ) (span : ℚ × ℚ) (num_tiles : ℕ) :
    tile_range tile_size span num_tiles =
      { start := truncQ (pyClamp (span.1 / (tile_size : ℚ)) 0 ((num_tiles : ℚ) - 1))
        stop := truncQ (pyClamp (span.2 / (tile_size : ℚ)) 0 ((num_tiles : ℚ) - 1) + 1) } :=
  rfl

theorem pyClamp_nonneg (v m : ℚ) : 0 ≤ pyClamp v 0 m := by
  simp [pyClamp]

theorem pyClamp_le (v m : ℚ) (hm : 0 ≤ m) : pyClamp v 0 m ≤ m := by
  simp [pyClamp, hm, min_le_right]

/-- Membership in `PyRange.toList` is interval membership. -/
theorem PyRange.mem_toList (r : PyRange) (i : ℤ) :
    i ∈ r.toList ↔ r.mem i := by
  unfold PyRange.toList PyRange.mem
  rw [List.mem_map]
  constructor
  · rintro ⟨k, hk, rfl⟩
    rw [List.mem_range] at hk
    omega
  · rintro ⟨h1, h2⟩
    refine ⟨(i - r.start).toNat, ?_, by omega⟩
    rw [List.mem_range]
    omega

theorem PyRange.toList_length (r : PyRange) :
    r.toList.length = (r.stop - r.start).toNat := by
  unfold PyRange.toList
  rw [List.length_map, List.length_range]

/-! ## Claims C2 and C3: bounds and edge clamping of `tile_range` -/

/-- **C2.** For every valid input (a span with `span[0] <= span[1]`, a
positive `tile_size`, and a positive `num_tiles`), `tile_range` returns a
half-open integer range fully contained in `[0, num_tiles)`: its start is
`>= 0` and its stop is `<= num_tiles`. -/
theorem tile_range_within_bounds (tile_size num_tiles : ℕ) (span : ℚ × ℚ)
    (hspan : span.1 ≤ span.2) (hT : 0 < tile_size) (hN : 0 < num_tiles) :
    0 ≤ (tile_range tile_size span num_tiles).start ∧
      (tile_range tile_size span num_tiles).stop ≤ (num_tiles : ℤ) := by
  rw [tile_range_eq]
  have hm : (0 : ℚ) ≤ (num_tiles : ℚ) - 1 := by
    have : (1 : ℚ) ≤ (num_tiles : ℚ) := by exact_mod_cast hN
    linarith
  constructor
  · rw [truncQ_of_nonneg (pyClamp_nonneg _ _)]
    exact Int.floor_nonneg.mpr (pyClamp_nonneg _ _)
  · have h1 : (0 : ℚ) ≤ pyClamp (span.2 / (tile_size : ℚ)) 0 ((num_tiles : ℚ) - 1) + 1 := by
      have := pyClamp_nonneg (span.2 / (tile_size : ℚ)) ((num_tiles : ℚ) - 1)
      linarith
    rw [truncQ_of_nonneg h1]
    have h2 : pyClamp (span.2 / (tile_size : ℚ)) 0 ((num_tiles : ℚ) - 1) + 1
        ≤ (num_tiles : ℚ) := by
      have := pyClamp_le (span.2 / (tile_size : ℚ)) ((num_tiles : ℚ) - 1) hm
      linarith
    calc ⌊pyClamp (span.2 / (tile_size : ℚ)) 0 ((num_tiles : ℚ) - 1) + 1⌋
        ≤ ⌊(num_tiles : ℚ)⌋ := Int.floor_le_floor h2
      _ = (num_tiles : ℤ) := by rw [Int.floor_natCast]

/-- Witness for `tile_range_within_bounds` at `span = (50, 250)`,
`tile_size = 100`, `num_tiles = 5`. -/
theorem tile_range_within_bounds_witness :
    0 ≤ (tile_range 100 ((50 : ℚ), (250 : ℚ)) 5).start ∧
      (tile_range 100 ((50 : ℚ), (250 : ℚ)) 5).stop ≤ (5 : ℤ) :=
  tile_range_within_bounds 100 5 ((50 : ℚ), (250 : ℚ))
    (by norm_num) (by norm_num) (by norm_num)

/-- **C3.** A span entirely below the valid interval `[0, num_tiles*tile_size)`
yields the singleton range `{0}` (i.e. `range(0, 1)`), and a span entirely
above it yields the singleton range `{num_tiles-1}` (i.e.
`range(num_tiles-1, num_tiles)`); neither is empty — underflow/overflow is
resolved by clamping to the edge tile, not signalled as an error. -/
theorem tile_range_clamps_to_edge_tile (tile_size num_tiles : ℕ) (span : ℚ × ℚ)
    (hspan : span.1 ≤ span.2) (hT : 0 < tile_size) (hN : 0 < num_tiles) :
    (span.2 < 0 →
      tile_range tile_size span num_tiles = { start := 0, stop := 1 }) ∧
    ((num_tiles : ℚ) * (tile_size : ℚ) ≤ span.1 →
      tile_range tile_size span num_tiles =
        { start := (num_tiles : ℤ) - 1, stop := (num_tiles : ℤ) }) := by
  have hT' : (0 : ℚ) < (tile_size : ℚ) := by exact_mod_cast hT
  have hN' : (1 : ℚ) ≤ (num_tiles : ℚ) := by exact_mod_cast hN
  constructor
  · intro hbelow
    have h2 : span.2 / (tile_size : ℚ) < 0 := div_neg_of_neg_of_pos hbelow hT'
    have h1 : span.1 / (tile_size : ℚ) < 0 :=
      div_neg_of_neg_of_pos (lt_of_le_of_lt hspan hbelow) hT'
    have hc1 : pyClamp (span.1 / (tile_size : ℚ)) 0 ((num_tiles : ℚ) - 1) = 0 := by
      rw [pyClamp, min_eq_left (by linarith), max_eq_right h1.le]
    have hc2 : pyClamp (span.2 / (tile_size : ℚ)) 0 ((num_tiles : ℚ) - 1) = 0 := by
      rw [pyClamp, min_eq_left (by linarith), max_eq_right h2.le]
    rw [tile_range_eq]
    simp only [hc1, hc2]
    norm_num [truncQ]
  · intro habove
    have h1 : (num_tiles : ℚ) ≤ span.1 / (tile_size : ℚ) :=
      (le_div_iff hT').mpr habove
    have h2 : (num_tiles : ℚ) ≤ span.2 / (tile_size : ℚ) :=
      le_trans h1 ((div_le_div_right hT').mpr hspan)
    have hc1 : pyClamp (span.1 / (tile_size : ℚ)) 0 ((num_tiles : ℚ) - 1)
        = (num_tiles : ℚ) - 1 := by
      rw [pyClamp, min_eq_right (by linarith), max_eq_left (by linarith)]
    have hc2 : pyClamp (span.2 / (tile_size : ℚ)) 0 ((num_tiles : ℚ) - 1)
        = (num_tiles : ℚ) - 1 := by
      rw [pyClamp, min_eq_right (by linarith), max_eq_left (by linarith)]
    rw [tile_range_eq]
    simp only [hc1, hc2]
    have e1 : truncQ ((num_tiles : ℚ) - 1) = (num_tiles : ℤ) - 1 := by
      rw [truncQ_of_nonneg (by linarith)]
      rw [show ((num_tiles : ℚ) - 1) = (((num_tiles : ℤ) - 1 : ℤ) : ℚ) by push_cast; ring]
      exact Int.floor_intCast _
    have e2 : truncQ ((num_tiles : ℚ) - 1 + 1) = (num_tiles : ℤ) := by
      rw [truncQ_of_nonneg (by linarith)]
      rw [show ((num_tiles : ℚ) - 1 + 1) = (((num_tiles : ℤ) : ℤ) : ℚ) by push_cast; ring]
      exact Int.floor_intCast _
    rw [e1, e2]

/-- Witness for `tile_range_clamps_to_edge_tile` at `tile_size = 100`,
`num_tiles = 5`, `span = (-500, -100)` (entirely below). -/
theorem tile_range_clamps_to_edge_tile_witness :
    ((-100 : ℚ) < 0 →
      tile_range 100 ((-500 : ℚ), (-100 : ℚ)) 5 = { start := 0, stop := 1 }) ∧
    ((5 : ℚ) * (100 : ℚ) ≤ (-500 : ℚ) →
      tile_range 100 ((-500 : ℚ), (-100 : ℚ)) 5 =
        { start := (5 : ℤ) - 1, stop := (5 : ℤ) }) :=
  tile_range_clamps_to_edge_tile 100 5 ((-500 : ℚ), (-100 : ℚ))
    (by norm_num) (by norm_num) (by norm_num)

/-! ## Claim C4: exact overlap characterization for in-bounds spans -/

/-- For `0 ≤ a ≤ b` with `b < N` (`N ≥ 1`), the clamped-truncated start of
`tile_range` is just `⌊a⌋`. -/
theorem truncQ_pyClamp_eq_floor {a : ℚ} {N : ℕ} (ha : 0 ≤ a) (haN : a < (N : ℚ))
    (hN : 0 < N) : truncQ (pyClamp a 0 ((N : ℚ) - 1)) = ⌊a⌋ := by
  have hN' : (1 : ℚ) ≤ (N : ℚ) := by exact_mod_cast hN
  have hmin : (0 : ℚ) ≤ min a ((N : ℚ) - 1) := le_min ha (by linarith)
  have hcl : pyClamp a 0 ((N : ℚ) - 1) = min a ((N : ℚ) - 1) := by
    rw [pyClamp, max_eq_left hmin]
  rw [hcl, truncQ_of_nonneg hmin]
  rcases le_total a ((N : ℚ) - 1) with h | h
  · rw [min_eq_left h]
  · rw [min_eq_right h]
    have e : ((N : ℚ) - 1) = (((N : ℤ) - 1 : ℤ) : ℚ) := by push_cast; ring
    rw [e, Int.floor_intCast]
    symm
    rw [Int.floor_eq_iff]
    constructor
    · rw [← e]; exact h
    · push_cast; linarith

/-- **C4.** For every span with `0 ≤ span[0] ≤ span[1] < num_tiles*tile_size`
(span inside the valid interval), the range returned by `tile_range`
contains exactly the tile indices `i` whose tile rectangle
`[i*tile_size, (i+1)*tile_size)` meets the closed span: every overlapping
index is in the range, and no disjoint index is. -/
theorem tile_range_overlap_exact (tile_size num_tiles : ℕ) (span : ℚ × ℚ)
    (hT : 0 < tile_size) (hN : 0 < num_tiles) (h0 : 0 ≤ span.1)
    (hspan : span.1 ≤ span.2)
    (hhi : span.2 < (num_tiles : ℚ) * (tile_size : ℚ)) :
    ∀ i : ℤ, (tile_range tile_size span num_tiles).mem i ↔
      ((i : ℚ) * (tile_size : ℚ) ≤ span.2 ∧
        span.1 < ((i : ℚ) + 1) * (tile_size : ℚ)) := by
  intro i
  have hT' : (0 : ℚ) < (tile_size : ℚ) := by exact_mod_cast hT
  have ht0 : 0 ≤ span.1 / (tile_size : ℚ) := div_nonneg h0 hT'.le
  have ht01 : span.1 / (tile_size : ℚ) ≤ span.2 / (tile_size : ℚ) :=
    (div_le_div_right hT').mpr hspan
  have ht1 : span.2 / (tile_size : ℚ) < (num_tiles : ℚ) :=
    (div_lt_iff hT').mpr hhi
  have ht0N : span.1 / (tile_size : ℚ) < (num_tiles : ℚ) := lt_of_le_of_lt ht01 ht1
  have hS : (tile_range tile_size span num_tiles).start = ⌊span.1 / (tile_size : ℚ)⌋ := by
    rw [tile_range_eq]
    exact truncQ_pyClamp_eq_floor ht0 ht0N hN
  have hE : (tile_range tile_size span num_tiles).stop = ⌊span.2 / (tile_size : ℚ)⌋ + 1 := by
    rw [tile_range_eq]
    show truncQ (pyClamp (span.2 / (tile_size : ℚ)) 0 ((num_tiles : ℚ) - 1) + 1) = _
    have hN' : (1 : ℚ) ≤ (num_tiles : ℚ) := by exact_mod_cast hN
    have hmin : (0 : ℚ) ≤ min (span.2 / (tile_size : ℚ)) ((num_tiles : ℚ) - 1) :=
      le_min (le_trans ht0 ht01) (by linarith)
    have hcl : pyClamp (span.2 / (tile_size : ℚ)) 0 ((num_tiles : ℚ) - 1)
        = min (span.2 / (tile_size : ℚ)) ((num_tiles : ℚ) - 1) := by
      rw [pyClamp, max_eq_left hmin]
    rw [hcl, truncQ_of_nonneg (by linarith), Int.floor_add_one]
    congr 1
    have := truncQ_pyClamp_eq_floor (le_trans ht0 ht01) ht1 hN
    rw [pyClamp, max_eq_left hmin] at this
    rw [← this, truncQ_of_nonneg hmin]
  rw [PyRange.mem, hS, hE]
  constructor
  · rintro ⟨h1, h2⟩
    have h2' : i ≤ ⌊span.2 / (tile_size : ℚ)⌋ := by omega
    constructor
    · have : (i : ℚ) ≤ span.2 / (tile_size : ℚ) := Int.le_floor.mp h2'
      calc (i : ℚ) * (tile_size : ℚ) ≤ (span.2 / (tile_size : ℚ)) * (tile_size : ℚ) :=
            mul_le_mul_of_nonneg_right this hT'.le
        _ = span.2 := div_mul_cancel₀ _ hT'.ne'
    · have h1' : span.1 / (tile_size : ℚ) < (i : ℚ) + 1 := by
        have := Int.floor_le_iff.mp h1
        push_cast at this
        exact this
      calc span.1 = (span.1 / (tile_size : ℚ)) * (tile_size : ℚ) :=
            (div_mul_cancel₀ _ hT'.ne').symm
        _ < ((i : ℚ) + 1) * (tile_size : ℚ) := by
            exact mul_lt_mul_of_pos_right h1' hT'
  · rintro ⟨h1, h2⟩
    constructor
    · rw [Int.floor_le_iff]
      rw [div_lt_iff hT']
      linarith [h2]
    · have : i ≤ ⌊span.2 / (tile_size : ℚ)⌋ := by
        rw [Int.le_floor, le_div_iff hT']
        exact h1
      omega

/-- Witness for `tile_range_overlap_exact` at `tile_size = 100`,
`num_tiles = 5`, `span = (50, 250)`, checked at index `i = 2`. -/
theorem tile_range_overlap_exact_witness :
    (tile_range 100 ((50 : ℚ), (250 : ℚ)) 5).mem 2 ↔
      (((2 : ℤ) : ℚ) * (100 : ℚ) ≤ (250 : ℚ) ∧
        (50 : ℚ) < (((2 : ℤ) : ℚ) + 1) * (100 : ℚ)) :=
  tile_range_overlap_exact 100 5 ((50 : ℚ), (250 : ℚ))
    (by norm_num) (by norm_num) (by norm_num) (by norm_num) (by norm_num) 2

/-! ## Claim C5: `normalized_range` is clamped and level-independent -/

theorem npClip01_nonneg (a : ℚ) : 0 ≤ npClip a 0 1 :=
  le_min (by norm_num) (le_max_right a 0)

theorem npClip01_le_one (a : ℚ) : npClip a 0 1 ≤ 1 :=
  min_le_left 1 (max a 0)

/-- **C5.** For all input corners, however far they extend outside the base
image, every component of `normalized_range` lies in `[0, 1]`;
`normalized_range` equals the row/col spans divided by the corresponding
`base_shape` component and clamped to `[0, 1]` — computed from the
*unscaled* corner spans, before the division by `info.scale` — and is
therefore the same whatever scale the intersected level has. -/
theorem normalized_range_spec (info : LevelInfo) (corners : Corners) :
    ((0 ≤ (OctreeIntersection.init info corners).normalized_range.1.1 ∧
        (OctreeIntersection.init info corners).normalized_range.1.1 ≤ 1) ∧
      (0 ≤ (OctreeIntersection.init info corners).normalized_range.1.2 ∧
        (OctreeIntersection.init info corners).normalized_range.1.2 ≤ 1) ∧
      (0 ≤ (OctreeIntersection.init info corners).normalized_range.2.1 ∧
        (OctreeIntersection.init info corners).normalized_range.2.1 ≤ 1) ∧
      (0 ≤ (OctreeIntersection.init info corners).normalized_range.2.2 ∧
        (OctreeIntersection.init info corners).normalized_range.2.2 ≤ 1)) ∧
    (OctreeIntersection.init info corners).normalized_range =
      ((npClip (corners.1.1 / (info.image_config.base_shape.1 : ℚ)) 0 1,
        npClip (corners.2.1 / (info.image_config.base_shape.1 : ℚ)) 0 1),
       (npClip (corners.1.2 / (info.image_config.base_shape.2 : ℚ)) 0 1,
        npClip (corners.2.2 / (info.image_config.base_shape.2 : ℚ)) 0 1)) ∧
    (∀ s' : ℚ,
      (OctreeIntersection.init { info with scale := s' } corners).normalized_range =
        (OctreeIntersection.init info corners).normalized_range) := by
  refine ⟨⟨⟨?_, ?_⟩, ⟨?_, ?_⟩, ⟨?_, ?_⟩, ⟨?_, ?_⟩⟩, rfl, fun s' => rfl⟩ <;>
    first
      | exact npClip01_nonneg _
      | exact npClip01_le_one _

/-! ## Claim C6: `is_visible` tests half-open membership in both ranges -/

/-- **C6.** `is_visible(row, col)` is true iff `row` lies in the row range
and `col` lies in the column range computed at construction, half-open on
both axes; in particular it is false at `start - 1` and at `stop` of either
axis, whatever the other coordinate is. -/
theorem is_visible_iff_in_ranges (I : OctreeIntersection) :
    (∀ row col : ℤ, I.is_visible row col = true ↔
      (I.row_range.mem row ∧ I.col_range.mem col)) ∧
    (∀ col : ℤ, I.is_visible (I.row_range.start - 1) col = false) ∧
    (∀ col : ℤ, I.is_visible I.row_range.stop col = false) ∧
    (∀ row : ℤ, I.is_visible row (I.col_range.start - 1) = false) ∧
    (∀ row : ℤ, I.is_visible row I.col_range.stop = false) := by
  have h : ∀ row col : ℤ, I.is_visible row col = true ↔
      (I.row_range.mem row ∧ I.col_range.mem col) := by
    intro row col
    simp [OctreeIntersection.is_visible, PyRange.mem, and_assoc]
  refine ⟨h, ?_, ?_, ?_, ?_⟩ <;> intro v <;>
    rw [← Bool.not_eq_true, h] <;> rw [PyRange.mem, PyRange.mem] <;> omega

/-! ## Materialize-once machinery for `get_chunks` (claim C1) -/

/-- A cell already holding a chunk is never changed by `processCell`:
the chunk branch leaves the grid alone, and the raw branch writes only to
a cell that held raw data. -/
theorem processCell_preserves {α : Type} (sid lidx : ℕ) (scale x y : ℚ)
    (g : Grid α) (row col r' c' : ℤ) (ch : OctreeChunk α)
    (h : g r' c' = TileCell.chunk ch) :
    (processCell sid lidx scale x y g row col).2 r' c' = TileCell.chunk ch := by
  cases hcell : g row col with
  | chunk c => simpa [processCell, hcell] using h
  | raw d =>
      simp only [processCell, hcell, gridSet]
      by_cases he : r' = row ∧ c' = col
      · exfalso
        obtain ⟨h1, h2⟩ := he
        rw [h1, h2, hcell] at h
        cases h
      · simp [he, h]

/-- After `processCell`, the visited cell holds exactly the returned chunk. -/
theorem processCell_sets {α : Type} (sid lidx : ℕ) (scale x y : ℚ)
    (g : Grid α) (row col : ℤ) :
    (processCell sid lidx scale x y g row col).2 row col =
      TileCell.chunk (processCell sid lidx scale x y g row col).1 := by
  cases hcell : g row col with
  | chunk c => simp [processCell, hcell]
  | raw d => simp [processCell, hcell, gridSet]

/-- The inner column loop never changes a cell that already holds a chunk. -/
theorem innerLoop_preserves {α : Type} (sid lidx : ℕ) (scale ssize y : ℚ) (row : ℤ)
    (cols : List ℤ) (x : ℚ) (g : Grid α) (r' c' : ℤ) (ch : OctreeChunk α)
    (h : g r' c' = TileCell.chunk ch) :
    (innerLoop sid lidx scale ssize y row cols x g).2 r' c' = TileCell.chunk ch := by
  induction cols generalizing x g with
  | nil => simpa [innerLoop] using h
  | cons c0 rest ih =>
      simp only [innerLoop]
      exact ih _ _ (processCell_preserves sid lidx scale x y g row c0 r' c' ch h)

/-- After the inner loop, every visited cell holds a chunk, and that chunk
is among the returned ones. -/
theorem innerLoop_sets {α : Type} (sid lidx : ℕ) (scale ssize y : ℚ) (row : ℤ)
    (cols : List ℤ) (x : ℚ) (g : Grid α) (col : ℤ) (hmem : col ∈ cols) :
    ∃ ch, (innerLoop sid lidx scale ssize y row cols x g).2 row col = TileCell.chunk ch ∧
      ch ∈ (innerLoop sid lidx scale ssize y row cols x g).1 := by
  induction cols generalizing x g with
  | nil => cases hmem
  | cons c0 rest ih =>
      simp only [innerLoop]
      rcases List.mem_cons.mp hmem with rfl | hmem'
      · refine ⟨(processCell sid lidx scale x y g row col).1, ?_, List.mem_cons_self _ _⟩
        exact innerLoop_preserves sid lidx scale ssize y row rest (x + ssize) _ _ _ _
          (processCell_sets sid lidx scale x y g row col)
      · obtain ⟨ch, h1, h2⟩ :=
          ih (x + ssize) (processCell sid lidx scale x y g row c0).2 hmem'
        exact ⟨ch, h1, List.mem_cons_of_mem _ h2⟩

/-- Running the inner loop on any grid `h` that agrees, on the visited
cells, with the grid left behind by a previous inner run returns exactly
the previous run's chunks and leaves `h` untouched. -/
theorem innerLoop_agree {α : Type} (sid lidx : ℕ) (scale ssize y : ℚ) (row : ℤ)
    (cols : List ℤ) (x : ℚ) (g h : Grid α)
    (hagree : ∀ col ∈ cols,
      h row col = (innerLoop sid lidx scale ssize y row cols x g).2 row col) :
    innerLoop sid lidx scale ssize y row cols x h =
      ((innerLoop sid lidx scale ssize y row cols x g).1, h) := by
  induction cols generalizing x g h with
  | nil => simp [innerLoop]
  | cons c0 rest ih =>
      have hset : (innerLoop sid lidx scale ssize y row (c0 :: rest) x g).2 row c0 =
          TileCell.chunk (processCell sid lidx scale x y g row c0).1 := by
        simp only [innerLoop]
        exact innerLoop_preserves sid lidx scale ssize y row rest (x + ssize) _ _ _ _
          (processCell_sets sid lidx scale x y g row c0)
      have hh0 : h row c0 = TileCell.chunk (processCell sid lidx scale x y g row c0).1 :=
        (hagree c0 (List.mem_cons_self _ _)).trans hset
      have hstep : processCell sid lidx scale x y h row c0 =
          ((processCell sid lidx scale x y g row c0).1, h) := by
        rw [processCell, hh0]
      have hrest : innerLoop sid lidx scale ssize y row rest (x + ssize) h =
          ((innerLoop sid lidx scale ssize y row rest (x + ssize)
              (processCell sid lidx scale x y g row c0).2).1, h) := by
        apply ih
        intro col hc
        have := hagree col (List.mem_cons_of_mem _ hc)
        rw [this]
        simp only [innerLoop]
      simp only [innerLoop, hstep, hrest]

/-- The outer row loop never changes a cell that already holds a chunk. -/
theorem outerLoop_preserves {α : Type} (sid lidx : ℕ) (scale ssize x0 : ℚ)
    (cols : List ℤ) (rows : List ℤ) (y : ℚ) (g : Grid α) (r' c' : ℤ)
    (ch : OctreeChunk α) (h : g r' c' = TileCell.chunk ch) :
    (outerLoop sid lidx scale ssize x0 cols rows y g).2 r' c' = TileCell.chunk ch := by
  induction rows generalizing y g with
  | nil => simpa [outerLoop] using h
  | cons r0 rest ih =>
      simp only [outerLoop]
      exact ih _ _ (innerLoop_preserves sid lidx scale ssize y r0 cols x0 g r' c' ch h)

/-- After the outer loop, every cell in the visited rectangle holds a chunk,
and that chunk is among the returned ones. -/
theorem outerLoop_sets {α : Type} (sid lidx : ℕ) (scale ssize x0 : ℚ)
    (cols : List ℤ) (rows : List ℤ) (y : ℚ) (g : Grid α) (row col : ℤ)
    (hrow : row ∈ rows) (hcol : col ∈ cols) :
    ∃ ch, (outerLoop sid lidx scale ssize x0 cols rows y g).2 row col = TileCell.chunk ch ∧
      ch ∈ (outerLoop sid lidx scale ssize x0 cols rows y g).1 := by
  induction rows generalizing y g with
  | nil => cases hrow
  | cons r0 rest ih =>
      simp only [outerLoop]
      rcases List.mem_cons.mp hrow with rfl | hrow'
      · obtain ⟨ch, h1, h2⟩ := innerLoop_sets sid lidx scale ssize y row cols x0 g col hcol
        refine ⟨ch, ?_, List.mem_append_left _ h2⟩
        exact outerLoop_preserves sid lidx scale ssize x0 cols rest (y + ssize) _ _ _ _ h1
      · obtain ⟨ch, h1, h2⟩ :=
          ih (y + ssize) (innerLoop sid lidx scale ssize y r0 cols x0 g).2 hrow'
        exact ⟨ch, h1, List.mem_append_right _ h2⟩

/-- Running the outer loop on any grid `h` that agrees, on the visited
rectangle, with the grid left behind by a previous outer run returns
exactly the previous run's chunks and leaves `h` untouched. -/
theorem outerLoop_agree {α : Type} (sid lidx : ℕ) (scale ssize x0 : ℚ)
    (cols : List ℤ) (rows : List ℤ) (y : ℚ) (g h : Grid α)
    (hagree : ∀ row ∈ rows, ∀ col ∈ cols,
      h row col = (outerLoop sid lidx scale ssize x0 cols rows y g).2 row col) :
    outerLoop sid lidx scale ssize x0 cols rows y h =
      ((outerLoop sid lidx scale ssize x0 cols rows y g).1, h) := by
  induction rows generalizing y g h with
  | nil => simp [outerLoop]
  | cons r0 rest ih =>
      have hGin : ∀ col ∈ cols,
          (outerLoop sid lidx scale ssize x0 cols (r0 :: rest) y g).2 r0 col =
            (innerLoop sid lidx scale ssize y r0 cols x0 g).2 r0 col := by
        intro col hc
        obtain ⟨ch, h1, _⟩ := innerLoop_sets sid lidx scale ssize y r0 cols x0 g col hc
        rw [h1]
        simp only [outerLoop]
        exact outerLoop_preserves sid lidx scale ssize x0 cols rest (y + ssize) _ _ _ _ h1
      have hstep : innerLoop sid lidx scale ssize y r0 cols x0 h =
          ((innerLoop sid lidx scale ssize y r0 cols x0 g).1, h) := by
        apply innerLoop_agree
        intro col hc
        rw [hagree r0 (List.mem_cons_self _ _) col hc, hGin col hc]
      have hrest : outerLoop sid lidx scale ssize x0 cols rest (y + ssize) h =
          ((outerLoop sid lidx scale ssize x0 cols rest (y + ssize)
              (innerLoop sid lidx scale ssize y r0 cols x0 g).2).1, h) := by
        apply ih
        intro row hr col hc
        rw [hagree row (List.mem_cons_of_mem _ hr) col hc]
        simp only [outerLoop]
      simp only [outerLoop, hstep, hrest]

/-- The inner loop returns one chunk per visited column. -/
theorem innerLoop_length {α : Type} (sid lidx : ℕ) (scale ssize y : ℚ) (row : ℤ)
    (cols : List ℤ) (x : ℚ) (g : Grid α) :
    (innerLoop sid lidx scale ssize y row cols x g).1.length = cols.length := by
  induction cols generalizing x g with
  | nil => simp [innerLoop]
  | cons c0 rest ih => simp [innerLoop, ih]

/-- The outer loop returns one chunk per visited `(row, col)` pair. -/
theorem outerLoop_length {α : Type} (sid lidx : ℕ) (scale ssize x0 : ℚ)
    (cols : List ℤ) (rows : List ℤ) (y : ℚ) (g : Grid α) :
    (outerLoop sid lidx scale ssize x0 cols rows y g).1.length =
      rows.length * cols.length := by
  induction rows generalizing y g with
  | nil => simp [outerLoop]
  | cons r0 rest ih =>
      simp only [outerLoop, List.length_append, innerLoop_length, ih, List.length_cons]
      ring

/-- **C1.** Materialize-once with stable identity: a second `get_chunks`
call with the same intersection and `slice_id` returns exactly the chunk
list of the first call and does not change the grid at all; after the
first call every `(row, col)` in the computed ranges holds a materialized
chunk that is among the returned chunks; and a cell that already holds a
chunk is never reverted to `Raw` or rebuilt — it keeps the identical
chunk. -/
theorem get_chunks_materialize_once {α : Type} (I : OctreeIntersection)
    (g : Grid α) (slice_id : ℕ) :
    (I.get_chunks (I.get_chunks g slice_id).2 slice_id).1 =
        (I.get_chunks g slice_id).1 ∧
    (I.get_chunks (I.get_chunks g slice_id).2 slice_id).2 =
        (I.get_chunks g slice_id).2 ∧
    (∀ row col : ℤ, I.row_range.mem row → I.col_range.mem col →
      ∃ ch, (I.get_chunks g slice_id).2 row col = TileCell.chunk ch ∧
        ch ∈ (I.get_chunks g slice_id).1) ∧
    (∀ row col : ℤ, ∀ ch : OctreeChunk α, g row col = TileCell.chunk ch →
      (I.get_chunks g slice_id).2 row col = TileCell.chunk ch) := by
  have hagree := outerLoop_agree slice_id I.info.level_index I.info.scale
    ((I.info.image_config.tile_size : ℚ) * I.info.scale)
    ((I.col_range.start : ℚ) * ((I.info.image_config.tile_size : ℚ) * I.info.scale))
    I.col_range.toList I.row_range.toList
    ((I.row_range.start : ℚ) * ((I.info.image_config.tile_size : ℚ) * I.info.scale))
    g (I.get_chunks g slice_id).2 (fun _ _ _ _ => rfl)
  refine ⟨?_, ?_, ?_, ?_⟩
  · show (outerLoop _ _ _ _ _ _ _ _ _).1 = _
    rw [hagree]
    rfl
  · show (outerLoop _ _ _ _ _ _ _ _ _).2 = _
    rw [hagree]
  · intro row col hrow hcol
    exact outerLoop_sets slice_id I.info.level_index I.info.scale _ _
      I.col_range.toList I.row_range.toList _ g row col
      ((PyRange.mem_toList _ _).mpr hrow) ((PyRange.mem_toList _ _).mpr hcol)
  · intro row col ch h
    exact outerLoop_preserves slice_id I.info.level_index I.info.scale _ _
      I.col_range.toList I.row_range.toList _ g row col ch h

/-- The scenario intersection's row range is `range(0, 2)`:
`span [0, 250] / scale 2 = [0, 125]`, `125/100 = 1.25`, clamp to `[0, 4]`,
`+1`, truncate. -/
theorem I7_row_range : I7.row_range = { start := 0, stop := 2 } := by
  show tile_range info7.image_config.tile_size
    ((0 : ℚ) / info7.scale, (250 : ℚ) / info7.scale) info7.shape_in_tiles.1 = _
  rw [tile_range_eq]
  norm_num [info7, cfg1000, pyClamp, truncQ]

/-- The scenario intersection's column range is `range(0, 2)`. -/
theorem I7_col_range : I7.col_range = { start := 0, stop := 2 } := by
  show tile_range info7.image_config.tile_size
    ((0 : ℚ) / info7.scale, (250 : ℚ) / info7.scale) info7.shape_in_tiles.2 = _
  rw [tile_range_eq]
  norm_num [info7, cfg1000, pyClamp, truncQ]

/-- Witness for `get_chunks_materialize_once` at the concrete scenario
intersection `I7`, the all-raw grid, `slice_id = 3`: the second call's
chunk list is the first call's, and the chunk the first call stored at
cell `(0, 0)` is returned. -/
theorem get_chunks_materialize_once_witness :
    (I7.get_chunks (I7.get_chunks rawGrid 3).2 3).1 =
        (I7.get_chunks rawGrid 3).1 ∧
    (∃ ch, (I7.get_chunks rawGrid 3).2 0 0 = TileCell.chunk ch ∧
      ch ∈ (I7.get_chunks rawGrid 3).1) :=
  ⟨(get_chunks_materialize_once I7 rawGrid 3).1,
    (get_chunks_materialize_once I7 rawGrid 3).2.2.1 0 0
      (by rw [I7_row_range]; exact ⟨by norm_num, by norm_num⟩)
      (by rw [I7_col_range]; exact ⟨by norm_num, by norm_num⟩)⟩

/-! ## Claim C7: the spec's concrete scenario -/

theorem toList02 : PyRange.toList { start := 0, stop := 2 } = [0, 1] := by
  decide

theorem I7_info : I7.info = info7 := rfl

/-- Full evaluation of `get_chunks(slice_id=1)` on the scenario
intersection over an all-raw grid. -/
theorem I7_get_chunks_eval :
    (I7.get_chunks rawGrid 1).1 =
      [ { data := 0, location := { slice_id := 1, level_index := 0, row := 0, col := 0 },
          geom := { pos := (0, 0), scale := (2, 2) } },
        { data := 0, location := { slice_id := 1, level_index := 0, row := 0, col := 1 },
          geom := { pos := (200, 0), scale := (2, 2) } },
        { data := 0, location := { slice_id := 1, level_index := 0, row := 1, col := 0 },
          geom := { pos := (0, 200), scale := (2, 2) } },
        { data := 0, location := { slice_id := 1, level_index := 0, row := 1, col := 1 },
          geom := { pos := (200, 200), scale := (2, 2) } } ] := by
  rw [OctreeIntersection.get_chunks]
  rw [I7_info, I7_row_range, I7_col_range, toList02]
  simp only [info7, cfg1000]
  norm_num [outerLoop, innerLoop, processCell, rawGrid, gridSet]

/-- **C7.** With base shape `(1000, 1000)`, level scale `2.0`, tile size
`100` and `shape_in_tiles = (5, 5)`, intersecting corners
`[[0, 0], [250, 250]]` yields row and column ranges both `[0, 2)`, and
`get_chunks` returns exactly 4 chunks, one per grid cell
`(0,0), (0,1), (1,0), (1,1)`, each with geometry position components
that are integer multiples of `tile_size * scale = 200`. -/
theorem concrete_scenario_ranges_and_chunks :
    I7.row_range = { start := 0, stop := 2 } ∧
    I7.col_range = { start := 0, stop := 2 } ∧
    (I7.get_chunks rawGrid 1).1.length = 4 ∧
    (I7.get_chunks rawGrid 1).1.map (fun c => (c.location.row, c.location.col)) =
      [(0, 0), (0, 1), (1, 0), (1, 1)] ∧
    ∀ c ∈ (I7.get_chunks rawGrid 1).1,
      ∃ k m : ℤ, c.geom.pos = ((200 : ℚ) * k, (200 : ℚ) * m) := by
  refine ⟨I7_row_range, I7_col_range, ?_, ?_, ?_⟩
  · rw [I7_get_chunks_eval]
    rfl
  · rw [I7_get_chunks_eval]
    rfl
  · rw [I7_get_chunks_eval]
    intro c hc
    fin_cases hc
    · exact ⟨0, 0, by norm_num⟩
    · exact ⟨1, 0, by norm_num⟩
    · exact ⟨0, 1, by norm_num⟩
    · exact ⟨1, 1, by norm_num⟩

/-- Witness for `concrete_scenario_ranges_and_chunks`: the second returned
chunk, at grid cell `(0, 1)`, has position `(200, 0)`, a multiple of 200
on both components. -/
theorem concrete_scenario_ranges_and_chunks_witness :
    ∃ k m : ℤ,
      ({ data := 0, location := { slice_id := 1, level_index := 0, row := 0, col := 1 },
         geom := { pos := (200, 0), scale := (2, 2) } } : OctreeChunk ℕ).geom.pos =
        ((200 : ℚ) * k, (200 : ℚ) * m) :=
  concrete_scenario_ranges_and_chunks.2.2.2.2 _
    (by rw [I7_get_chunks_eval]; exact List.mem_cons_of_mem _ (List.mem_cons_self _ _))

/-! ## Claim C10: ranges are never empty, `get_chunks` never returns `[]` -/

/-- For any ordered span the clamp-then-`+1` construction gives a
non-empty range, whatever `num_tiles` and `tile_size` are. -/
theorem tile_range_nonempty (tile_size num_tiles : ℕ) (span : ℚ × ℚ)
    (hspan : span.1 ≤ span.2) :
    (tile_range tile_size span num_tiles).start <
      (tile_range tile_size span num_tiles).stop := by
  rw [tile_range_eq]
  have hdiv : span.1 / (tile_size : ℚ) ≤ span.2 / (tile_size : ℚ) := by
    rcases Nat.eq_zero_or_pos tile_size with h0 | hpos
    · simp [h0]
    · exact (div_le_div_right (by exact_mod_cast hpos)).mpr hspan
  have hmono : pyClamp (span.1 / (tile_size : ℚ)) 0 ((num_tiles : ℚ) - 1) ≤
      pyClamp (span.2 / (tile_size : ℚ)) 0 ((num_tiles : ℚ) - 1) :=
    max_le_max (min_le_min hdiv le_rfl) le_rfl
  show truncQ _ < truncQ _
  rw [truncQ_of_nonneg (pyClamp_nonneg _ _),
    truncQ_of_nonneg (by linarith [pyClamp_nonneg (span.2 / (tile_size : ℚ)) ((num_tiles : ℚ) - 1)]),
    Int.floor_add_one]
  have := Int.floor_le_floor hmono
  omega

/-- **C10.** For every ordered span, positive `tile_size` and
`num_tiles >= 1`, `tile_range` is non-empty (`start < stop`); consequently
an intersection built from ordered corners (lower-left below upper-right,
positive scale) has at least one visible `(row, col)` — its two range
starts — and `get_chunks` returns at least one chunk, even for a
zero-area viewport. -/
theorem tile_range_and_chunks_nonempty {α : Type} (tile_size num_tiles : ℕ)
    (span : ℚ × ℚ) (info : LevelInfo) (corners : Corners) (g : Grid α)
    (slice_id : ℕ) (hspan : span.1 ≤ span.2) (hT : 0 < tile_size)
    (hN : 0 < num_tiles) (hc1 : corners.1.1 ≤ corners.2.1)
    (hc2 : corners.1.2 ≤ corners.2.2) (hscale : 0 < info.scale) :
    (tile_range tile_size span num_tiles).start <
        (tile_range tile_size span num_tiles).stop ∧
    (OctreeIntersection.init info corners).is_visible
        (OctreeIntersection.init info corners).row_range.start
        (OctreeIntersection.init info corners).col_range.start = true ∧
    1 ≤ ((OctreeIntersection.init info corners).get_chunks g slice_id).1.length := by
  have hrow : (OctreeIntersection.init info corners).row_range =
      tile_range info.image_config.tile_size
        (corners.1.1 / info.scale, corners.2.1 / info.scale)
        info.shape_in_tiles.1 := rfl
  have hcol : (OctreeIntersection.init info corners).col_range =
      tile_range info.image_config.tile_size
        (corners.1.2 / info.scale, corners.2.2 / info.scale)
        info.shape_in_tiles.2 := rfl
  have hrne : (OctreeIntersection.init info corners).row_range.start <
      (OctreeIntersection.init info corners).row_range.stop := by
    rw [hrow]
    exact tile_range_nonempty _ _ _ ((div_le_div_right hscale).mpr hc1)
  have hcne : (OctreeIntersection.init info corners).col_range.start <
      (OctreeIntersection.init info corners).col_range.stop := by
    rw [hcol]
    exact tile_range_nonempty _ _ _ ((div_le_div_right hscale).mpr hc2)
  refine ⟨tile_range_nonempty _ _ _ hspan, ?_, ?_⟩
  · simp only [OctreeIntersection.is_visible, Bool.and_eq_true, decide_eq_true_eq]
    exact ⟨⟨le_refl _, hrne⟩, ⟨le_refl _, hcne⟩⟩
  · show 1 ≤ (outerLoop _ _ _ _ _ _ _ _ _).1.length
    rw [outerLoop_length, PyRange.toList_length, PyRange.toList_length]
    have h1 : 1 ≤ ((OctreeIntersection.init info corners).row_range.stop -
        (OctreeIntersection.init info corners).row_range.start).toNat := by omega
    have h2 : 1 ≤ ((OctreeIntersection.init info corners).col_range.stop -
        (OctreeIntersection.init info corners).col_range.start).toNat := by omega
    exact Nat.one_le_iff_ne_zero.mpr (Nat.mul_ne_zero (by omega) (by omega))

/-- Witness for `tile_range_and_chunks_nonempty` at the zero-area viewport
`[[0, 0], [0, 0]]` on the scenario level, `span = (0, 0)`, `tile_size =
100`, `num_tiles = 5`. -/
theorem tile_range_and_chunks_nonempty_witness :
    (tile_range 100 ((0 : ℚ), (0 : ℚ)) 5).start <
        (tile_range 100 ((0 : ℚ), (0 : ℚ)) 5).stop ∧
    (OctreeIntersection.init info7 ((0, 0), (0, 0))).is_visible
        (OctreeIntersection.init info7 ((0, 0), (0, 0))).row_range.start
        (OctreeIntersection.init info7 ((0, 0), (0, 0))).col_range.start = true ∧
    1 ≤ ((OctreeIntersection.init info7 ((0, 0), (0, 0))).get_chunks rawGrid 0).1.length :=
  tile_range_and_chunks_nonempty 100 5 ((0 : ℚ), (0 : ℚ)) info7 ((0, 0), (0, 0))
    rawGrid 0 (by norm_num) (by norm_num) (by norm_num) (by norm_num) (by norm_num)
    (by norm_num [info7])

/-! ## Claim C8 (corrected): `corners_2d` is rewritten through the views -/

/-- Counterexample to C8 as stated: with level scale `2.0` and caller
corners `[[0, 0], [250, 250]]`, the stored `corners_2d` does *not* still
hold the caller-supplied values — the in-place `/= scale` through the
`rows`/`cols` views rewrote it to `[[0, 0], [125, 125]]`. -/
theorem corners_2d_not_caller_values :
    (OctreeIntersection.init info7 ((0, 0), (250, 250))).corners_2d ≠
      ((0, 0), (250, 250)) := by
  intro h
  have h21 : (250 : ℚ) / 2 = 250 := congrArg (fun c : Corners => c.2.1) h
  norm_num at h21

/-- **C8 (amended).** After construction the Intersection owns a copy of
the input corners, but `rows`/`cols` are views into that copy and the
in-place division by `info.scale` rewrites it: the stored `corners_2d`
holds the caller-supplied corner values divided by the level's scale
(equal to the original values only when `scale = 1`), and `rows`/`cols`
hold exactly those scaled spans. -/
theorem corners_2d_holds_scaled_values (info : LevelInfo) (corners : Corners) :
    (OctreeIntersection.init info corners).corners_2d =
      divCorners corners info.scale ∧
    (OctreeIntersection.init info corners).rows =
      (corners.1.1 / info.scale, corners.2.1 / info.scale) ∧
    (OctreeIntersection.init info corners).cols =
      (corners.1.2 / info.scale, corners.2.2 / info.scale) :=
  ⟨rfl, rfl, rfl⟩

/-! ## Claim C9: the caller's buffer is copied, never mutated -/

/-- **C9.** At the buffer level, `__init__` copies the caller's corners
array into a fresh buffer and performs all in-place mutation on the copy:
afterwards the caller's buffer holds exactly the values it held before,
the copy holds the scale-divided values, and the constructed intersection
is `OctreeIntersection.init` of the caller's (unchanged) contents. -/
theorem init_never_mutates_caller_buffer (info : LevelInfo) (s : NpStore)
    (caller : ℕ) (h : caller < s.next) :
    (initStore info s caller).1.bufs caller = s.bufs caller ∧
    (initStore info s caller).1.bufs (initStore info s caller).2.1 =
      divCorners (s.bufs caller) info.scale ∧
    (initStore info s caller).2.2 = OctreeIntersection.init info (s.bufs caller) := by
  have hne : caller ≠ s.next := Nat.ne_of_lt h
  refine ⟨?_, ?_, rfl⟩
  · simp [initStore, hne]
  · simp [initStore]

/-- Witness for `init_never_mutates_caller_buffer` on a one-buffer store
holding the scenario corners at id `0`. -/
theorem init_never_mutates_caller_buffer_witness :
    (initStore info7 st0 0).1.bufs 0 = st0.bufs 0 ∧
    (initStore info7 st0 0).1.bufs (initStore info7 st0 0).2.1 =
      divCorners (st0.bufs 0) info7.scale ∧
    (initStore info7 st0 0).2.2 = OctreeIntersection.init info7 (st0.bufs 0) :=
  init_never_mutates_caller_buffer info7 st0 0 (by norm_num [st0])

end Octree
